import Mathlib

/-!
Verification development for the rf-generators serial protocol engines.

The definitions below are a shallow embedding of the two protocol modules:
the Cesar 1312 engine (checksum guarded frames with an ACK and NAK
handshake, optional bit reversal) and the CitoPlus 1310 engine (CRC16
guarded frames with function code tagged headers).  Python integers are
modelled as Nat, Python byte strings as List Nat with elements below 256,
and fallible operations return Option or Except values whose none or error
branch models the exception raised by the source.
-/

set_option maxRecDepth 10000

namespace RfGenerators

/-- Byte order configuration value, little or big endian, as used by the
Python calls of to_bytes and from_bytes in the source. -/
inductive ByteOrder where
  | little
  | big
deriving DecidableEq

/-- Model of the Python call n.to_bytes(len, byteorder, signed=False): the
byte list of the value when it fits into the requested length, none for the
OverflowError raised otherwise. -/
def toBytes (len : Nat) (bo : ByteOrder) (n : Nat) : Option (List Nat) :=
  if n < 2 ^ (8 * len) then
    let le := (List.range len).map fun i => n / 2 ^ (8 * i) % 256
    some (match bo with
      | .little => le
      | .big => le.reverse)
  else
    none

/-- Model of the Python call int.from_bytes(bs, byteorder). -/
def fromBytes (bo : ByteOrder) (bs : List Nat) : Nat :=
  let le := match bo with
    | .little => bs
    | .big => bs.reverse
  le.foldr (fun b acc => b + 256 * acc) 0

/-- Binary digits of a number, most significant digit first, computed with a
fuel argument that only needs to be at least the bit length; the source
obtains these digits through string formatting with format code b. -/
def natBitsAux : Nat → Nat → List Bool
  | 0, _ => []
  | _ + 1, 0 => []
  | fuel + 1, n + 1 => natBitsAux fuel ((n + 1) / 2) ++ [(n + 1) % 2 == 1]

/-- Digits of Python binary formatting without a width: a single zero digit
for zero, otherwise the binary digits without leading zeros. -/
def pyBinDigits (n : Nat) : List Bool :=
  if n = 0 then [false] else natBitsAux n n

/-- Digits of Python zero padded binary formatting with a minimum width, as
in format code 05b: pads on the left with zeros up to the width and never
truncates a longer digit string. -/
def pyBinFormat (width n : Nat) : List Bool :=
  List.replicate (width - (pyBinDigits n).length) false ++ pyBinDigits n

/-- Value of a most significant digit first binary digit list, as the Python
call int(s, 2). -/
def bitsToNat (l : List Bool) : Nat :=
  l.foldl (fun acc b => 2 * acc + (if b then 1 else 0)) 0

namespace Cesar1312

/-- Embedding of the static method make_header of Cesar1312: concatenates the
five digit formatted address with the three digit formatted data length and
parses the concatenation as a binary number. -/
def make_header (address data_length : Nat) : Nat :=
  bitsToNat (pyBinFormat 5 address ++ pyBinFormat 3 data_length)

/-- Embedding of the static method parse_header of Cesar1312: the header byte
string is read as one big endian number and formatted as eight binary digits
minimum; the first five digits are the address, the rest the data length. -/
def parse_header (hdr : List Nat) : Nat × Nat :=
  let bin := pyBinFormat 8 (fromBytes .big hdr)
  (bitsToNat (bin.take 5), bitsToNat (bin.drop 5))

/-- Embedding of the static method reverse_bit_order of Cesar1312: formats
the value as eight binary digits minimum, reverses the digit string and
parses it back as a binary number. -/
def reverse_bit_order (data : Nat) : Nat :=
  bitsToNat ((pyBinFormat 8 data).reverse)

/-- Embedding of the static method calculate_checksum of Cesar1312: the xor
of all bytes of the input, packed as a one byte string; none models the
exceptions on an empty input and on a value not fitting one byte. -/
def calculate_checksum (data : List Nat) : Option (List Nat) :=
  match data with
  | [] => none
  | b :: rest =>
    let c := rest.foldl (fun acc x => acc ^^^ x) b
    if c < 256 then some [c] else none

/-- Header byte, command byte and, for a data length above six, the explicit
data length byte of a package, before optional bit reversal, exactly as the
list pkg is assembled inside make_pkg. -/
def pkg_fields (address cmd_number data_length : Nat) : List Nat :=
  if data_length ≤ 6 then
    [make_header address data_length, cmd_number]
  else
    [make_header address data_length, cmd_number, data_length]

/-- Embedding of the method make_pkg of Cesar1312.  The data argument is the
already encoded byte payload or none.  The two explicit ValueError checks of
the source and the implicit range check of the bytes constructor are
modelled as none. -/
def make_pkg (bit_order_reversed : Bool) (address cmd_number : Nat)
    (data : Option (List Nat)) : Option (List Nat) :=
  let data_length := (data.getD []).length
  if data_length > 255 then none
  else if cmd_number > 255 then none
  else
    let pkg0 := pkg_fields address cmd_number data_length
    let pkg1 := if bit_order_reversed then pkg0.map reverse_bit_order else pkg0
    if pkg1.all (fun b => b < 256) then
      (calculate_checksum (pkg1 ++ data.getD [])).map
        (fun cb => pkg1 ++ data.getD [] ++ cb)
    else none

/-- Inner loop of the method make_data of Cesar1312: encodes each paired
length and value with to_bytes and concatenates the byte strings; none
models the OverflowError raised by to_bytes. -/
def make_data_loop (bo : ByteOrder) : List (Nat × Nat) → Option (List Nat)
  | [] => some []
  | (ll, dd) :: rest =>
    match toBytes ll bo dd, make_data_loop bo rest with
    | some bs, some r => some (bs ++ r)
    | _, _ => none

/-- Embedding of the method make_data of Cesar1312 in its list form: when bit
reversal is configured every data value is bit reversed first, then each
value is encoded into its paired byte count honouring the byte order. -/
def make_data (bit_order_reversed : Bool) (bo : ByteOrder)
    (length data : List Nat) : Option (List Nat) :=
  let data := if bit_order_reversed then data.map reverse_bit_order else data
  make_data_loop bo (length.zip data)

/-- One transport action: writing a byte string to the serial line or
reading a given number of bytes from it. -/
inductive SerialAction where
  | write (bs : List Nat)
  | read (n : Nat)
deriving DecidableEq

/-- Embedding of the first while loop of the method query of Cesar1312.  The
responses function gives the one byte read result of each attempt, the fuel
counts the remaining allowed attempts and attempt is the current value of
the retries counter.  Returned are the transport trace and the attempt index
that received the acknowledgement byte, or none when the allowed attempts
are exhausted. -/
def ack_loop (package ack : List Nat) (responses : Nat → List Nat) :
    Nat → Nat → List SerialAction × Option Nat
  | 0, _ => ([], none)
  | fuel + 1, attempt =>
    let acts := [SerialAction.write package, SerialAction.read 1]
    if responses attempt = ack then
      (acts, some attempt)
    else
      let rest := ack_loop package ack responses fuel (attempt + 1)
      (acts ++ rest.1, rest.2)

/-- Result of the acknowledgement phase: the attempt index at which the
acknowledgement byte arrived, or the OSError raised after the retries were
exhausted without one. -/
inductive AckOutcome where
  | got (attempt : Nat)
  | oserror
deriving DecidableEq

/-- Embedding of the acknowledgement phase of the method query of Cesar1312,
including the OSError raised when no acknowledgement arrived within the
configured number of retries. -/
def query_ack_phase (package ack : List Nat) (responses : Nat → List Nat)
    (retries : Nat) : List SerialAction × AckOutcome :=
  match ack_loop package ack responses retries 0 with
  | (acts, some k) => (acts, .got k)
  | (acts, none) => (acts, .oserror)

/-- Possible outcomes of the method send_cmd of Cesar1312 for a given byte
string returned by the query call. -/
inductive SendOutcome where
  | ok
  | warning (csr : Nat)
  | valueErrorNoData
  | valueErrorUnpack
  | attributeError
deriving DecidableEq

/-- Embedding of the method send_cmd of Cesar1312 after the query call
returned.  The source unpacks the returned byte string into the three names
adr, cmd and data, which only succeeds when the string holds exactly three
bytes and otherwise raises a ValueError; with three bytes, a nonzero third
byte reaches the attribute access hex on an int, raising an AttributeError,
and a zero third byte reaches the explicit ValueError of the source. -/
def send_cmd (query_result : List Nat) : SendOutcome :=
  match query_result with
  | [_adr, _cmd, data] => if data ≠ 0 then .attributeError else .valueErrorNoData
  | _ => .valueErrorUnpack

end Cesar1312

namespace CitoPlus1310

/-- Embedding of the method check_exception of CitoPlus1310: decodes the
function code, evaluates the condition of the source literally, and on that
condition raises an OSError carrying the decoded exception code, modelled as
the error branch. -/
def check_exception (bo : ByteOrder) (fn_code exc_code : List Nat) :
    Except Nat Unit :=
  let fn_code_int := fromBytes bo fn_code
  if fn_code_int != 0x41 || fn_code_int != 0x42 then
    Except.error (fromBytes bo exc_code)
  else
    Except.ok ()

/-- A Python value as it occurs in the address assert of the method
query_cmd: either an int or a byte string. -/
inductive PyVal where
  | pyInt (n : Nat)
  | pyBytes (bs : List Nat)
deriving DecidableEq

/-- Python equality between the two value kinds: an int never compares equal
to a byte string. -/
def pyEq : PyVal → PyVal → Bool
  | .pyInt a, .pyInt b => a == b
  | .pyBytes a, .pyBytes b => a == b
  | _, _ => false

/-- The address field the method query_cmd selects from the three byte reply
header; indexing a byte string yields an int in Python. -/
def query_addr_field (header_as_short : Bool) (bo : ByteOrder)
    (hdr : List Nat) : Nat :=
  if header_as_short && bo == ByteOrder.little then hdr.getD 2 0
  else hdr.getD 0 0

/-- Embedding of the address assert of the method query_cmd of CitoPlus1310:
the selected header field, an int, is compared for equality with the
configured address packed as a one byte string. -/
def query_addr_check (header_as_short : Bool) (bo : ByteOrder)
    (hdr : List Nat) (address : Nat) : Bool :=
  pyEq (.pyInt (query_addr_field header_as_short bo hdr))
    (.pyBytes ((toBytes 1 bo address).getD []))

/-- Embedding of the method make_hdr of CitoPlus1310: either both header
bytes packed as one two byte value honouring the byte order, or the raw
address and function code bytes; none models the exceptions for values not
fitting their width. -/
def make_hdr (header_as_short : Bool) (bo : ByteOrder)
    (address fn_code : Nat) : Option (List Nat) :=
  if header_as_short then
    toBytes 2 bo (address * 256 + fn_code)
  else if address ≤ 255 && fn_code ≤ 255 then
    some [address, fn_code]
  else
    none

/-- The CRC16 table of the source, transcribed entry for entry. -/
def Crc16tab : List Nat := [
  0x0000, 0xC0C1, 0xC181, 0x0140, 0xC301, 0x03C0, 0x0280, 0xC241,
  0xC601, 0x06C0, 0x0780, 0xC741, 0x0500, 0xC5C1, 0xC481, 0x0440,
  0xCC01, 0x0CC0, 0x0D80, 0xCD41, 0x0F00, 0xCFC1, 0xCE81, 0x0E40,
  0x0A00, 0xCAC1, 0xCB81, 0x0B40, 0xC901, 0x09C0, 0x0880, 0xC841,
  0xD801, 0x18C0, 0x1980, 0xD941, 0x1B00, 0xDBC1, 0xDA81, 0x1A40,
  0x1E00, 0xDEC1, 0xDF81, 0x1F40, 0xDD01, 0x1DC0, 0x1C80, 0xDC41,
  0x1400, 0xD4C1, 0xD581, 0x1540, 0xD701, 0x17C0, 0x1680, 0xD641,
  0xD201, 0x12C0, 0x1380, 0xD341, 0x1100, 0xD1C1, 0xD081, 0x1040,
  0xF001, 0x30C0, 0x3180, 0xF141, 0x3300, 0xF3C1, 0xF281, 0x3240,
  0x3600, 0xF6C1, 0xF781, 0x3740, 0xF501, 0x35C0, 0x3480, 0xF441,
  0x3C00, 0xFCC1, 0xFD81, 0x3D40, 0xFF01, 0x3FC0, 0x3E80, 0xFE41,
  0xFA01, 0x3AC0, 0x3B80, 0xFB41, 0x3900, 0xF9C1, 0xF881, 0x3840,
  0x2800, 0xE8C1, 0xE981, 0x2940, 0xEB01, 0x2BC0, 0x2A80, 0xEA41,
  0xEE01, 0x2EC0, 0x2F80, 0xEF41, 0x2D00, 0xEDC1, 0xEC81, 0x2C40,
  0xE401, 0x24C0, 0x2580, 0xE541, 0x2700, 0xE7C1, 0xE681, 0x2640,
  0x2200, 0xE2C1, 0xE381, 0x2340, 0xE101, 0x21C0, 0x2080, 0xE041,
  0xA001, 0x60C0, 0x6180, 0xA141, 0x6300, 0xA3C1, 0xA281, 0x6240,
  0x6600, 0xA6C1, 0xA781, 0x6740, 0xA501, 0x65C0, 0x6480, 0xA441,
  0x6C00, 0xACC1, 0xAD81, 0x6D40, 0xAF01, 0x6FC0, 0x6E80, 0xAE41,
  0xAA01, 0x6AC0, 0x6B80, 0xAB41, 0x6900, 0xA9C1, 0xA881, 0x6840,
  0x7800, 0xB8C1, 0xB981, 0x7940, 0xBB01, 0x7BC0, 0x7A80, 0xBA41,
  0xBE01, 0x7EC0, 0x7F80, 0xBF41, 0x7D00, 0xBDC1, 0xBC81, 0x7C40,
  0xB401, 0x74C0, 0x7580, 0xB541, 0x7700, 0xB7C1, 0xB681, 0x7640,
  0x7200, 0xB2C1, 0xB381, 0x7340, 0xB101, 0x71C0, 0x7080, 0xB041,
  0x5000, 0x90C1, 0x9181, 0x5140, 0x9301, 0x53C0, 0x5280, 0x9241,
  0x9601, 0x56C0, 0x5780, 0x9741, 0x5500, 0x95C1, 0x9481, 0x5440,
  0x9C01, 0x5CC0, 0x5D80, 0x9D41, 0x5F00, 0x9FC1, 0x9E81, 0x5E40,
  0x5A00, 0x9AC1, 0x9B81, 0x5B40, 0x9901, 0x59C0, 0x5880, 0x9841,
  0x8801, 0x48C0, 0x4980, 0x8941, 0x4B00, 0x8BC1, 0x8A81, 0x4A40,
  0x4E00, 0x8EC1, 0x8F81, 0x4F40, 0x8D01, 0x4DC0, 0x4C80, 0x8C41,
  0x4400, 0x84C1, 0x8581, 0x4540, 0x8701, 0x47C0, 0x4680, 0x8641,
  0x8201, 0x42C0, 0x4380, 0x8341, 0x4100, 0x81C1, 0x8081, 0x4040]

/-- Embedding of the module level function crc16 of the source: the table
driven accumulation starting from zero, one table step per input byte. -/
def crc16 (data : List Nat) : Nat :=
  data.foldl (fun crc dat =>
    let tmp := (0xFF &&& crc) ^^^ dat
    (crc >>> 8) ^^^ Crc16tab.getD tmp 0) 0

/-- One bit step of the reflected CRC16 with polynomial 0xA001, following
the words of the specification: shift right, and xor the polynomial in when
the dropped bit was set. -/
def crcBitRound (c : Nat) : Nat :=
  if c % 2 = 1 then (c >>> 1) ^^^ 0xA001 else c >>> 1

/-- Iterated bit steps of the reflected CRC16. -/
def crcBitRounds : Nat → Nat → Nat
  | 0, c => c
  | k + 1, c => crcBitRounds k (crcBitRound c)

/-- Reference definition following the words of the specification: the
reflected CRC16 with polynomial 0xA001 and initial value zero, computed bit
by bit, each input byte xored into the state followed by eight bit steps. -/
def crc16_spec (data : List Nat) : Nat :=
  data.foldl (fun crc dat => crcBitRounds 8 (crc ^^^ dat)) 0

/-- Embedding of the method make_pkg of CitoPlus1310: function code 0x41 for
a read without data and 0x42 for a write, header per make_hdr, two byte
command code, then the payload, either the two byte constant one for a read
or the data value in the given byte count for a write, and finally the CRC16
of the preceding bytes packed into two bytes per the byte order. -/
def make_pkg (bo : ByteOrder) (header_as_short : Bool)
    (address cmd_code : Nat) (data : Option Nat) (data_length : Nat) :
    Option (List Nat) :=
  let fn_code := match data with
    | none => 0x41
    | some _ => 0x42
  (make_hdr header_as_short bo address fn_code).bind fun hdr =>
  (toBytes 2 bo cmd_code).bind fun cmd =>
  (match data with
    | some d => toBytes data_length bo d
    | none => toBytes 2 bo 1).bind fun dat =>
  (toBytes 2 bo (crc16 (hdr ++ cmd ++ dat))).map fun crc_bytes =>
  hdr ++ cmd ++ dat ++ crc_bytes

end CitoPlus1310

end RfGenerators

namespace RfGenerators

/-- The checksum byte produced by calculate_checksum is the xor of all input
bytes, folded from zero. -/
theorem calculate_checksum_eq (l cb : List Nat)
    (h : Cesar1312.calculate_checksum l = some cb) :
    cb = [l.foldl (fun acc x => acc ^^^ x) 0] := by
  match l with
  | [] => simp [Cesar1312.calculate_checksum] at h
  | b :: rest =>
    simp only [Cesar1312.calculate_checksum] at h
    split at h
    · cases h
      simp [List.foldl_cons, Nat.zero_xor]
    · cases h

/-- Folding xor over a list with its own xor appended gives zero. -/
theorem foldl_xor_append_self (l : List Nat) :
    (l ++ [l.foldl (fun acc x => acc ^^^ x) 0]).foldl
      (fun acc x => acc ^^^ x) 0 = 0 := by
  rw [List.foldl_append]
  simp [Nat.xor_self]

end RfGenerators

namespace RfGenerators.Cesar1312

/-- C5: every frame successfully produced by the Profile A encoder make_pkg,
for any address 0 to 31, command 0 to 255, payload of 0 to 255 bytes and
either bit reversal setting, has total xor zero, the trailing checksum byte
included. -/
theorem frame_xor_zero (rev : Bool) (address cmd : Nat)
    (data : Option (List Nat)) (frame : List Nat)
    (ha : address ≤ 31) (hc : cmd ≤ 255)
    (hlen : (data.getD []).length ≤ 255)
    (hbytes : ∀ b ∈ data.getD [], b < 256)
    (h : make_pkg rev address cmd data = some frame) :
    frame.foldl (fun acc b => acc ^^^ b) 0 = 0 := by
  simp only [make_pkg] at h
  split at h
  · cases h
  split at h
  · cases h
  split at h
  all_goals split at h
  all_goals try cases h
  all_goals
    rw [Option.map_eq_some'] at h
    obtain ⟨cb, heq, hfb⟩ := h
    have hcb := calculate_checksum_eq _ _ heq
    subst hcb
    rw [← hfb]
    exact foldl_xor_append_self _

/-- Witness for C5 at the concrete frame of the repository test corpus. -/
theorem frame_xor_zero_witness :
    ([19, 3, 1, 2, 3, 16] : List Nat).foldl (fun acc b => acc ^^^ b) 0 = 0 :=
  frame_xor_zero false 2 3 (some [1, 2, 3]) [19, 3, 1, 2, 3, 16]
    (by decide) (by decide) (by decide) (by decide) (by decide)

/-- C10: for every address 0 to 31 and every length selector 0 to 7, parsing
the header byte produced by make_header with parse_header returns exactly
the original pair. -/
theorem header_roundtrip :
    ∀ a < 32, ∀ d < 8, parse_header [make_header a d] = (a, d) := by decide

/-- Witness for C10 at a concrete address and selector. -/
theorem header_roundtrip_witness : parse_header [make_header 2 7] = (2, 7) :=
  header_roundtrip 2 (by decide) 7 (by decide)

/-- C4, code divergence: for the eight byte payload of zeros at address one
and command zero, make_pkg succeeds and produces the header byte 24, whose
low three bits are 0 and not the claimed sentinel 7, because make_header
never clamps a data length above six down to seven; the length extension
byte 8 is still emitted. -/
theorem make_pkg_length_extension_broken :
    make_pkg false 1 0 (some (List.replicate 8 0)) =
      some [24, 0, 8, 0, 0, 0, 0, 0, 0, 0, 0, 16] ∧
    24 % 8 = 0 ∧ ¬ (24 % 8 = 7) := by decide

/-- C3, code divergence: send_cmd unpacks the byte string returned by query
into three names, so a one byte status payload, in particular the success
code zero, raises a ValueError instead of returning silently, and no input
at all ever reaches the silent success or the warning path. -/
theorem send_cmd_never_reports_csr :
    send_cmd [0] = SendOutcome.valueErrorUnpack ∧
    send_cmd [] = SendOutcome.valueErrorUnpack ∧
    (∀ l, send_cmd l ≠ SendOutcome.ok) ∧
    (∀ l csr, send_cmd l ≠ SendOutcome.warning csr) := by
  refine ⟨rfl, rfl, ?_, ?_⟩ <;>
    intro l <;>
    rcases l with _ | ⟨a, _ | ⟨b, _ | ⟨c, _ | ⟨d, t⟩⟩⟩⟩ <;>
    simp [send_cmd] <;>
    split <;> simp

end RfGenerators.Cesar1312

namespace RfGenerators.CitoPlus1310

/-- C1, code divergence: the literal condition of check_exception is true for
every function code, so the reply function codes 0x41 and 0x42 also raise
the OSError carrying the exception code, and in general every call raises. -/
theorem check_exception_always_raises :
    check_exception .little [0x41] [0x00] = Except.error 0 ∧
    check_exception .little [0x42] [0x00] = Except.error 0 ∧
    ∀ bo fn exc, check_exception bo fn exc =
      Except.error (fromBytes bo exc) := by
  refine ⟨rfl, rfl, ?_⟩
  intro bo fn exc
  have h : (fromBytes bo fn != 0x41 || fromBytes bo fn != 0x42) = true := by
    by_cases h65 : fromBytes bo fn = 0x41
    · simp [h65]
    · simp [h65]
  simp [check_exception, h]

/-- C2, code divergence: the address assert of query_cmd compares an int with
a one byte string, which in Python is never equal, so the check fails for
the matching default address and indeed for every header and address. -/
theorem query_addr_check_never_passes :
    query_addr_check false .little [0x0A, 0x41, 0x04] 0x0A = false ∧
    ∀ hs bo hdr address, query_addr_check hs bo hdr address = false := by
  exact ⟨rfl, fun hs bo hdr address => rfl⟩

end RfGenerators.CitoPlus1310

namespace RfGenerators.Cesar1312

/-- C7 counterexample: with bit reversal enabled, a two byte data value is
reversed as one integer before serialization, so the produced data bytes
are not the bytewise reversal of the unreversed encoding: for value 256 and
length 2 the reversed engine emits the bytes 1, 0 while reversing each byte
of the unreversed encoding gives 0, 128. -/
theorem bit_reversal_data_counterexample :
    make_data true .little [2] [256] = some [1, 0] ∧
    (make_data false .little [2] [256]).map (List.map reverse_bit_order) =
      some [0, 128] ∧
    ([1, 0] : List Nat) ≠ [0, 128] := by decide

/-- C7 amended: reverse_bit_order is an involution on bytes; with bit
reversal enabled make_pkg bit reverses each of the header, command and
optional length bytes, appends the data untouched, and the trailing
checksum, computed over the already reversed bytes, is itself not reversed;
make_data reverses each data value as an integer before serialization.  -/
theorem bit_reversal_amended :
    (∀ n < 256, reverse_bit_order (reverse_bit_order n) = n) ∧
    (∀ address cmd d frame,
      make_pkg true address cmd (some d) = some frame →
      ∃ chk,
        frame = (pkg_fields address cmd d.length).map reverse_bit_order
          ++ d ++ [chk] ∧
        calculate_checksum
          ((pkg_fields address cmd d.length).map reverse_bit_order ++ d) =
          some [chk]) ∧
    (∀ bo lengths datas,
      make_data true bo lengths datas =
        make_data false bo lengths (datas.map reverse_bit_order)) := by
  refine ⟨by decide, ?_, ?_⟩
  · intro address cmd d frame h
    simp only [make_pkg, Option.getD_some] at h
    split at h
    · cases h
    split at h
    · cases h
    split at h
    · split at h
      · rw [Option.map_eq_some'] at h
        obtain ⟨cb, heq, hfb⟩ := h
        have hcb := calculate_checksum_eq _ _ heq
        subst hcb
        exact ⟨_, hfb.symm, heq⟩
      · cases h
    · rename_i hFalse
      simp at hFalse
  · intro bo lengths datas
    rfl

/-- Witness for C7 at the reversed frame of the repository test corpus. -/
theorem bit_reversal_amended_witness :
    reverse_bit_order (reverse_bit_order 6) = 6 ∧
    (∃ chk, ([200, 192, 1, 2, 3, 8] : List Nat) =
        (pkg_fields 2 3 3).map reverse_bit_order ++ [1, 2, 3] ++ [chk] ∧
      calculate_checksum
        ((pkg_fields 2 3 3).map reverse_bit_order ++ [1, 2, 3]) =
        some [chk]) ∧
    make_data true .big [2] [1] =
      make_data false .big [2] ([1].map reverse_bit_order) :=
  ⟨bit_reversal_amended.1 6 (by decide),
   bit_reversal_amended.2.1 2 3 [1, 2, 3] [200, 192, 1, 2, 3, 8] (by decide),
   bit_reversal_amended.2.2 .big [2] [1]⟩

end RfGenerators.Cesar1312

namespace RfGenerators.CitoPlus1310

/-- C6 counterexample: the payload bytes of a read frame do depend on the
configured byte order; with the default device address and register one the
little endian engine emits the payload bytes 1, 0 and the big endian engine
the payload bytes 0, 1. -/
theorem read_payload_counterexample :
    (make_pkg .little false 10 1 none 0).map (fun f => (f.drop 4).take 2) =
      some [1, 0] ∧
    (make_pkg .big false 10 1 none 0).map (fun f => (f.drop 4).take 2) =
      some [0, 1] ∧
    ¬ ((make_pkg .little false 10 1 none 0).map (fun f => (f.drop 4).take 2) =
       (make_pkg .big false 10 1 none 0).map (fun f => (f.drop 4).take 2)) := by
  decide

/-- A successful to_bytes call returns exactly the requested number of
bytes. -/
theorem toBytes_length (len : Nat) (bo : ByteOrder) (n : Nat) (l : List Nat)
    (h : toBytes len bo n = some l) : l.length = len := by
  simp only [toBytes] at h
  split at h
  · cases bo <;> cases h <;> simp
  · cases h

/-- A successful make_hdr call returns exactly two header bytes. -/
theorem make_hdr_length (hs : Bool) (bo : ByteOrder) (a f : Nat)
    (l : List Nat) (h : make_hdr hs bo a f = some l) : l.length = 2 := by
  simp only [make_hdr] at h
  split at h
  · exact toBytes_length _ _ _ _ h
  · split at h
    · cases h; rfl
    · cases h

/-- C6 amended: for every successfully encoded read frame the two payload
bytes are the two byte encoding of the constant one in the configured byte
order, bytes 1, 0 for little endian and 0, 1 for big endian. -/
theorem read_payload_byteorder (bo : ByteOrder) (hs : Bool)
    (address cmd_code data_length : Nat) (frame : List Nat)
    (h : make_pkg bo hs address cmd_code none data_length = some frame) :
    (frame.drop 4).take 2 =
      (match bo with | .little => [1, 0] | .big => [0, 1]) := by
  simp only [make_pkg, Option.bind_eq_some, Option.map_eq_some'] at h
  obtain ⟨hdr, hh, cmd, hc, dat, hd, crcb, hcrc, hfb⟩ := h
  obtain ⟨h1, h2, rfl⟩ := List.length_eq_two.mp (make_hdr_length _ _ _ _ _ hh)
  obtain ⟨c1, c2, rfl⟩ := List.length_eq_two.mp (toBytes_length _ _ _ _ hc)
  cases bo
  · have hdat : dat = [1, 0] := by
      have : toBytes 2 ByteOrder.little 1 = some [1, 0] := by decide
      rw [this] at hd
      cases hd
      rfl
    subst hdat
    subst hfb
    simp
  · have hdat : dat = [0, 1] := by
      have : toBytes 2 ByteOrder.big 1 = some [0, 1] := by decide
      rw [this] at hd
      cases hd
      rfl
    subst hdat
    subst hfb
    simp

/-- Witness for C6 at the concrete read frame of the repository test. -/
theorem read_payload_byteorder_witness :
    ∃ frame, make_pkg .little false 10 1 none 0 = some frame ∧
      (frame.drop 4).take 2 = [1, 0] :=
  ⟨[10, 65, 1, 0, 1, 0, 60, 201], by decide,
   read_payload_byteorder .little false 10 1 0 _ (by decide)⟩

end RfGenerators.CitoPlus1310

namespace RfGenerators.CitoPlus1310

/-- Shifting right by one distributes over xor. -/
theorem shiftRight_one_xor (a b : Nat) :
    (a ^^^ b) >>> 1 = a >>> 1 ^^^ b >>> 1 := by
  apply Nat.eq_of_testBit_eq
  intro i
  simp [Nat.testBit_shiftRight, Nat.testBit_xor]

/-- Parity of an xor is the xor of the parities. -/
theorem mod_two_xor (a b : Nat) :
    (a ^^^ b) % 2 = (a % 2) ^^^ (b % 2) := by
  rw [← Nat.and_one_is_mod, ← Nat.and_one_is_mod, ← Nat.and_one_is_mod]
  exact Nat.and_xor_distrib_right

/-- Left commutativity of xor on Nat. -/
theorem xor_left_comm (x y z : Nat) : x ^^^ (y ^^^ z) = y ^^^ (x ^^^ z) := by
  rw [← Nat.xor_assoc, Nat.xor_comm x y, Nat.xor_assoc]

/-- The bit step of the reflected CRC16 is linear over xor. -/
theorem crcBitRound_xor (a b : Nat) :
    crcBitRound (a ^^^ b) = crcBitRound a ^^^ crcBitRound b := by
  have hab := mod_two_xor a b
  unfold crcBitRound
  rcases Nat.mod_two_eq_zero_or_one a with ha | ha <;>
    rcases Nat.mod_two_eq_zero_or_one b with hb | hb <;>
    rw [ha, hb] at hab <;>
    simp [ha, hb, hab, shiftRight_one_xor, Nat.xor_assoc, Nat.xor_comm,
      xor_left_comm]

/-- Iterated bit steps of the reflected CRC16 are linear over xor. -/
theorem crcBitRounds_xor (k : Nat) :
    ∀ a b, crcBitRounds k (a ^^^ b) =
      crcBitRounds k a ^^^ crcBitRounds k b := by
  induction k with
  | zero => intro a b; rfl
  | succ k ih =>
    intro a b
    simp only [crcBitRounds, crcBitRound_xor]
    exact ih _ _

/-- Iterating the bit step k times on a value shifted left by k recovers the
value: the shifted low bits are zero, so the polynomial is never xored in. -/
theorem crcBitRounds_shiftLeft (k : Nat) :
    ∀ h, crcBitRounds k (h <<< k) = h := by
  induction k with
  | zero => intro h; simp [crcBitRounds]
  | succ k ih =>
    intro h
    have heven : (h <<< (k + 1)) % 2 = 0 := by
      rw [Nat.shiftLeft_eq, Nat.pow_succ, ← Nat.mul_assoc]
      simp [Nat.mul_mod_left]
    have hshift : (h <<< (k + 1)) >>> 1 = h <<< k := by
      rw [Nat.shiftLeft_eq, Nat.shiftLeft_eq, Nat.shiftRight_eq_div_pow,
        Nat.pow_succ, ← Nat.mul_assoc, Nat.pow_one]
      exact Nat.mul_div_cancel _ (by decide)
    simp only [crcBitRounds, crcBitRound, heven]
    rw [if_neg (by omega), hshift]
    exact ih h

/-- Every number splits into its high part shifted back up xored with its
low byte. -/
theorem shiftRight_shiftLeft_xor_and (a : Nat) :
    a = ((a >>> 8) <<< 8) ^^^ (a &&& 255) := by
  apply Nat.eq_of_testBit_eq
  intro i
  have h255 : (255 : Nat) = 2 ^ 8 - 1 := by norm_num
  rw [h255]
  simp only [Nat.testBit_xor, Nat.testBit_shiftLeft, Nat.testBit_shiftRight,
    Nat.testBit_and, Nat.testBit_two_pow_sub_one]
  by_cases hi : i < 8
  · have h8 : ¬ 8 ≤ i := by omega
    simp [hi, h8]
  · have h8 : 8 ≤ i := by omega
    have harith : 8 + (i - 8) = i := by omega
    simp [hi, h8, harith]

/-- The table of the source agrees with eight bit steps of the reflected
CRC16 on every index. -/
theorem crc_table_correct : ∀ i < 256, Crc16tab.getD i 0 = crcBitRounds 8 i := by
  decide

/-- Every table lookup result fits sixteen bits. -/
theorem crc_table_getD_lt : ∀ i, Crc16tab.getD i 0 < 65536 := by
  intro i
  by_cases h : i < 256
  · have hall : ∀ j < 256, Crc16tab.getD j 0 < 65536 := by decide
    exact hall i h
  · rw [List.getD_eq_default]
    · decide
    · have hlen : Crc16tab.length = 256 := by decide
      omega

/-- One byte step of the table driven CRC16 equals eight bit steps of the
reflected CRC16 on the state xored with the byte. -/
theorem crc_step (crc b : Nat) (hb : b < 256) :
    crcBitRounds 8 (crc ^^^ b) =
      (crc >>> 8) ^^^ Crc16tab.getD ((0xFF &&& crc) ^^^ b) 0 := by
  have h1 : (0xFF : Nat) &&& crc < 256 := by
    rw [Nat.and_comm]
    have := Nat.and_lt_two_pow crc (show (255 : Nat) < 2 ^ 8 by norm_num)
    simpa using this
  have hidx : (0xFF &&& crc) ^^^ b < 256 := by
    have := Nat.xor_lt_two_pow (n := 8) (by simpa using h1) (by simpa using hb)
    simpa using this
  have hcomm : crc &&& 255 = 0xFF &&& crc := Nat.and_comm crc 255
  calc crcBitRounds 8 (crc ^^^ b)
      = crcBitRounds 8 ((((crc >>> 8) <<< 8) ^^^ (crc &&& 255)) ^^^ b) := by
        rw [← shiftRight_shiftLeft_xor_and]
    _ = crcBitRounds 8 (((crc >>> 8) <<< 8) ^^^ ((crc &&& 255) ^^^ b)) := by
        rw [Nat.xor_assoc]
    _ = crcBitRounds 8 ((crc >>> 8) <<< 8) ^^^
          crcBitRounds 8 ((crc &&& 255) ^^^ b) := crcBitRounds_xor 8 _ _
    _ = (crc >>> 8) ^^^ crcBitRounds 8 ((crc &&& 255) ^^^ b) := by
        rw [crcBitRounds_shiftLeft]
    _ = (crc >>> 8) ^^^ Crc16tab.getD ((0xFF &&& crc) ^^^ b) 0 := by
        rw [hcomm, crc_table_correct _ hidx]

/-- The two fold accumulations, table driven and bit by bit, agree from any
common starting state when all input values are bytes. -/
theorem crc_fold_eq (data : List Nat) :
    ∀ crc, (∀ b ∈ data, b < 256) →
      data.foldl (fun crc dat =>
        let tmp := (0xFF &&& crc) ^^^ dat
        (crc >>> 8) ^^^ Crc16tab.getD tmp 0) crc =
      data.foldl (fun crc dat => crcBitRounds 8 (crc ^^^ dat)) crc := by
  induction data with
  | nil => intro crc h; rfl
  | cons b rest ih =>
    intro crc h
    simp only [List.foldl_cons]
    rw [crc_step crc b (h b (by simp))]
    exact ih _ (fun x hx => h x (by simp [hx]))

/-- The table driven accumulation keeps the state below sixteen bits. -/
theorem crc_fold_lt (data : List Nat) :
    ∀ crc, crc < 65536 →
      data.foldl (fun crc dat =>
        let tmp := (0xFF &&& crc) ^^^ dat
        (crc >>> 8) ^^^ Crc16tab.getD tmp 0) crc < 65536 := by
  induction data with
  | nil => intro crc h; exact h
  | cons b rest ih =>
    intro crc h
    apply ih
    have hs : crc >>> 8 < 65536 := by
      rw [Nat.shiftRight_eq_div_pow]
      exact Nat.lt_of_le_of_lt (Nat.div_le_self _ _) h
    have := Nat.xor_lt_two_pow (n := 16) (by simpa using hs)
      (by simpa using crc_table_getD_lt ((0xFF &&& crc) ^^^ b))
    simpa using this

/-- C8: the table driven crc16 of the source computes, for every byte list,
exactly the reflected CRC16 with polynomial 0xA001 and initial value zero,
and its result always fits sixteen bits. -/
theorem crc16_correct (data : List Nat) (h : ∀ b ∈ data, b < 256) :
    crc16 data = crc16_spec data ∧ crc16 data < 65536 := by
  constructor
  · unfold crc16 crc16_spec
    exact crc_fold_eq data 0 h
  · unfold crc16
    exact crc_fold_lt data 0 (by norm_num)

/-- Witness for C8 at the byte prefix of the repository test frame. -/
theorem crc16_correct_witness :
    crc16 [10, 65, 1, 0, 1, 0] = crc16_spec [10, 65, 1, 0, 1, 0] ∧
    crc16 [10, 65, 1, 0, 1, 0] < 65536 :=
  crc16_correct [10, 65, 1, 0, 1, 0] (by decide)

end RfGenerators.CitoPlus1310

namespace RfGenerators.Cesar1312

/-- When every response within the remaining attempts differs from the
acknowledgement byte, the loop performs one write and one read per attempt
and ends with none. -/
theorem ack_loop_all_fail (package ack : List Nat)
    (responses : Nat → List Nat) :
    ∀ fuel attempt,
      (∀ j, attempt ≤ j → j < attempt + fuel → responses j ≠ ack) →
      ack_loop package ack responses fuel attempt =
        ((List.replicate fuel
          [SerialAction.write package, SerialAction.read 1]).join, none) := by
  intro fuel
  induction fuel with
  | zero => intro attempt h; rfl
  | succ fuel ih =>
    intro attempt h
    have hne : responses attempt ≠ ack := h attempt (Nat.le_refl _) (by omega)
    simp only [ack_loop, if_neg hne]
    rw [ih (attempt + 1) (fun j hj1 hj2 => h j (by omega) (by omega))]
    simp [List.replicate_succ]

/-- When the response of attempt k is the acknowledgement byte and every
earlier attempt within range fails, the loop performs one write and one read
per attempt up to and including attempt k and returns k. -/
theorem ack_loop_success (package ack : List Nat)
    (responses : Nat → List Nat) :
    ∀ fuel attempt k,
      attempt ≤ k → k < attempt + fuel → responses k = ack →
      (∀ j, attempt ≤ j → j < k → responses j ≠ ack) →
      ack_loop package ack responses fuel attempt =
        ((List.replicate (k + 1 - attempt)
          [SerialAction.write package, SerialAction.read 1]).join, some k) := by
  intro fuel
  induction fuel with
  | zero => intro attempt k h1 h2 h3 h4; omega
  | succ fuel ih =>
    intro attempt k h1 h2 h3 h4
    by_cases heq : responses attempt = ack
    · have hak : attempt = k := by
        by_contra hne
        exact h4 attempt (Nat.le_refl _) (by omega) heq
      subst hak
      simp only [ack_loop, if_pos heq]
      have hone : attempt + 1 - attempt = 1 := by omega
      rw [hone]
      simp
    · have hlt : attempt < k := by
        rcases Nat.lt_or_ge attempt k with hc | hc
        · exact hc
        · have : attempt = k := by omega
          subst this
          exact absurd h3 heq
      simp only [ack_loop, if_neg heq]
      rw [ih (attempt + 1) k (by omega) (by omega) h3
        (fun j hj1 hj2 => h4 j (by omega) hj2)]
      have hrep : k + 1 - attempt = (k + 1 - (attempt + 1)) + 1 := by omega
      rw [hrep]
      simp [List.replicate_succ]

/-- C9: in the acknowledgement phase of query the engine writes the encoded
frame and reads exactly one byte per attempt; an attempt whose byte equals
the configured acknowledgement byte ends the phase successfully, any other
byte causes another write and read, and when all configured attempts fail
the phase raises the fatal OSError. -/
theorem query_ack_phase_spec (package ack : List Nat)
    (responses : Nat → List Nat) (retries : Nat) :
    ((∀ j, j < retries → responses j ≠ ack) →
      query_ack_phase package ack responses retries =
        ((List.replicate retries
          [SerialAction.write package, SerialAction.read 1]).join,
         AckOutcome.oserror)) ∧
    (∀ k, k < retries → responses k = ack →
      (∀ j, j < k → responses j ≠ ack) →
      query_ack_phase package ack responses retries =
        ((List.replicate (k + 1)
          [SerialAction.write package, SerialAction.read 1]).join,
         AckOutcome.got k)) := by
  constructor
  · intro h
    unfold query_ack_phase
    rw [ack_loop_all_fail package ack responses retries 0
      (fun j hj1 hj2 => h j (by omega))]
  · intro k hk hak hfail
    unfold query_ack_phase
    rw [ack_loop_success package ack responses retries 0 k (by omega)
      (by omega) hak (fun j hj1 hj2 => hfail j hj2)]
    simp

/-- Witness for C9: with three configured attempts and the acknowledgement
byte arriving at the second attempt, the phase performs exactly two write
and read pairs and succeeds at attempt index one. -/
theorem query_ack_phase_spec_witness :
    query_ack_phase [1] [6] (fun i => if i = 1 then [6] else [21]) 3 =
      ((List.replicate 2 [SerialAction.write [1], SerialAction.read 1]).join,
       AckOutcome.got 1) :=
  (query_ack_phase_spec [1] [6] (fun i => if i = 1 then [6] else [21]) 3).2
    1 (by decide) (by decide) (by decide)

end RfGenerators.Cesar1312
